import Mathlib

/-!
Verification of the LLVM debug-information metadata builder
(`llvm/debug.go`, `llvm/debug2.cpp` and the `InsertDeclare` binding).

The descriptor graph is embedded as an arena (`List Desc`): descriptor
identity — which the Go code obtains from pointer identity when it keys
its memoization map — is the arena index, and a descriptor-typed field
(`DebugDescriptor` interface or `*FileDescriptor` pointer in Go) is a
`DescRef`, which is either a valid index, a nil interface, or a nil
pointer boxed in a non-nil interface (Go's two flavours of "absent").

LLVM values (`llvm.Value`) are embedded as the inductive `Value`: the
constructors mirror the primitive node constructors the Go code calls
(`ConstInt`, `ConstNull`, `ConstAllOnes`, `MDString`, `MDNode`), plus
`nilV` for the nil handle `Value{nil}` and `handle` for opaque values
(generated functions / storage) that the descriptors merely carry.

Lowering (`DebugInfo.MDNode`, the descriptors' `mdNode` methods and the
batch `DebugInfo.MDNodes`) is a fuel-indexed evaluator over an explicit
state `DIState` holding the memoization cache (an association list keyed
by arena index, mirroring the Go `map[DebugDescriptor]Value`) and a log
of the indices whose `mdNode` method has been invoked, so that "the
descriptor's own lowering runs exactly once" is expressible.  Fuel only
bounds the recursion depth: `none` means the recursion exceeded the fuel
(the Go code would still be recursing), never an error result.
-/

/-- The LLVM integer types used by the lowering code. -/
inductive IntTy where
  | i1
  | i32
  | i64
deriving DecidableEq, Repr

/-- LLVM values as far as the debug-info builder can observe them. -/
inductive Value where
  /-- The nil handle `Value{nil}`, returned when lowering an absent descriptor. -/
  | nilV : Value
  /-- `ConstInt(ty, v, signExtend)`. -/
  | constInt : IntTy → Nat → Bool → Value
  /-- `ConstNull(ty)`. -/
  | constNull : IntTy → Value
  /-- `ConstAllOnes(ty)`. -/
  | constAllOnes : IntTy → Value
  /-- `MDString(s)`. -/
  | mdString : String → Value
  /-- `MDNode(fields)`; `MDNode(nil)` is `node []`. -/
  | node : List Value → Value
  /-- An opaque value handle (a generated function or storage value). -/
  | handle : Nat → Value

/-- `LLVMDebugVersion = (12 << 16)`. -/
def LLVMDebugVersion : Nat := 12 <<< 16

def DW_TAG_lexical_block : Nat := 0x0b
def DW_TAG_compile_unit : Nat := 0x11
def DW_TAG_variable : Nat := 0x34
def DW_TAG_base_type : Nat := 0x24
def DW_TAG_pointer_type : Nat := 0x0F
def DW_TAG_structure_type : Nat := 0x13
def DW_TAG_subroutine_type : Nat := 0x15
def DW_TAG_file_type : Nat := 0x29
def DW_TAG_subprogram : Nat := 0x2E
def DW_TAG_auto_variable : Nat := 0x100
def DW_TAG_arg_variable : Nat := 0x101

def FlagPrivate : Nat := 1
def FlagProtected : Nat := 2
def FlagFwdDecl : Nat := 4
def FlagAppleBlock : Nat := 8
def FlagBlockByrefStruct : Nat := 16
def FlagVirtual : Nat := 32
def FlagArtificial : Nat := 64
def FlagExplicit : Nat := 128
def FlagPrototyped : Nat := 256
def FlagObjcClassComplete : Nat := 512
def FlagObjectPointer : Nat := 1024
def FlagVector : Nat := 2048
def FlagStaticMember : Nat := 4096
def FlagIndirectVariable : Nat := 8192

def DW_ATE_address : Nat := 0x01
def DW_ATE_boolean : Nat := 0x02
def DW_ATE_float : Nat := 0x04
def DW_ATE_signed : Nat := 0x05
def DW_ATE_unsigned : Nat := 0x07

/-- A reference to a descriptor, as seen by `DebugInfo.MDNode`.  `ref id`
is a live descriptor at arena index `id`; `nilIface` is a nil
`DebugDescriptor` interface value; `nilPtr` is a nil concrete pointer
boxed in a non-nil interface (the case the Go code detects via
`reflect.ValueOf(d).IsNil()`). -/
inductive DescRef where
  | nilIface : DescRef
  | nilPtr : DescRef
  | ref : Nat → DescRef
deriving DecidableEq, Repr

/-- `type FileDescriptor string`. -/
abbrev FileDescriptor := String

structure BasicTypeDescriptor where
  Context : DescRef
  Name : String
  File : DescRef
  Line : Nat
  Size : Nat
  Alignment : Nat
  Offset : Nat
  Flags : Nat
  TypeEncoding : Nat
deriving DecidableEq, Repr

structure CompositeTypeDescriptor where
  tag : Nat
  Context : DescRef
  Name : String
  File : DescRef
  Line : Nat
  Size : Nat
  Alignment : Nat
  Offset : Nat
  Flags : Nat
  Members : List DescRef
deriving DecidableEq, Repr

structure DerivedTypeDescriptor where
  tag : Nat
  Context : DescRef
  Name : String
  File : DescRef
  Line : Nat
  Size : Nat
  Alignment : Nat
  Offset : Nat
  Flags : Nat
  Base : DescRef
deriving DecidableEq, Repr

structure CompileUnitDescriptor where
  Path : FileDescriptor
  Language : Nat
  Producer : String
  Optimized : Bool
  CompilerFlags : String
  Runtime : Int
  EnumTypes : List DescRef
  RetainedTypes : List DescRef
  Subprograms : List DescRef
  GlobalVariables : List DescRef
deriving DecidableEq, Repr

structure SubprogramDescriptor where
  Context : DescRef
  Name : String
  DisplayName : String
  Type' : DescRef
  Line : Nat
  Function : Value
  Path : FileDescriptor
  ScopeLine : Nat

structure GlobalVariableDescriptor where
  Context : DescRef
  Name : String
  DisplayName : String
  File : DescRef
  Line : Nat
  Type' : DescRef
  Local : Bool
  External : Bool
  Value' : Value

structure LocalVariableDescriptor where
  tag : Nat
  Context : DescRef
  Name : String
  File : DescRef
  Line : Nat
  Argument : Nat
  Type' : DescRef
deriving DecidableEq, Repr

structure LineDescriptor where
  Line : Nat
  Column : Nat
  Context : DescRef
deriving DecidableEq, Repr

/-- `type ContextDescriptor struct{ FileDescriptor }`. -/
structure ContextDescriptor where
  FileDescriptor : FileDescriptor
deriving DecidableEq, Repr

structure BlockDescriptor where
  File : DescRef
  Context : DescRef
  Line : Nat
  Column : Nat
  Id : Nat
deriving DecidableEq, Repr

/-- The closed family of `DebugDescriptor` implementations. -/
inductive Desc where
  | basic (d : BasicTypeDescriptor)
  | composite (d : CompositeTypeDescriptor)
  | derived (d : DerivedTypeDescriptor)
  | compileUnit (d : CompileUnitDescriptor)
  | subprogram (d : SubprogramDescriptor)
  | globalVariable (d : GlobalVariableDescriptor)
  | localVariable (d : LocalVariableDescriptor)
  | file (d : FileDescriptor)
  | line (d : LineDescriptor)
  | context (d : ContextDescriptor)
  | block (d : BlockDescriptor)

/-- The `Tag()` interface method.  `none` models the one implementation
that panics instead of returning: `LineDescriptor.Tag` executes
`panic("LineDescriptor.Tag should never be called")`. -/
def Desc.Tag : Desc → Option Nat
  | .basic _ => some DW_TAG_base_type
  | .composite d => some d.tag
  | .derived d => some d.tag
  | .compileUnit _ => some DW_TAG_compile_unit
  | .subprogram _ => some DW_TAG_subprogram
  | .globalVariable _ => some DW_TAG_variable
  | .localVariable d => some d.tag
  | .file _ => some DW_TAG_file_type
  | .line _ => none
  | .context _ => some DW_TAG_file_type
  | .block _ => some DW_TAG_lexical_block

/-- Discriminator for the `FileDescriptor` variant. -/
def Desc.isFile : Desc → Bool
  | .file _ => true
  | _ => false

/-- Discriminator for the `LineDescriptor` variant. -/
def Desc.isLine : Desc → Bool
  | .line _ => true
  | _ => false

/-- The descriptor references a variant hands to `info.MDNode` /
`info.MDNodes` while lowering (its reference-typed fields, and the
member list for composites). -/
def Desc.refs : Desc → List DescRef
  | .basic d => [d.File, d.Context]
  | .composite d => [d.File, d.Context] ++ d.Members
  | .derived d => [d.File, d.Context, d.Base]
  | .compileUnit d => d.EnumTypes ++ d.RetainedTypes ++ d.Subprograms ++ d.GlobalVariables
  | .subprogram d => [d.Context, d.Type']
  | .globalVariable d => [d.Context, d.File, d.Type']
  | .localVariable d => [d.Context, d.File, d.Type']
  | .file _ => []
  | .line d => [d.Context]
  | .context _ => []
  | .block d => [d.File, d.Context]

/-- `constInt1`. -/
def constInt1 (v : Bool) : Value :=
  if v then Value.constAllOnes IntTy.i1 else Value.constNull IntTy.i1

/-- Go's `path.Split`: everything up to and including the final `'/'`
goes to the directory part, the remainder is the file part. -/
def goPathSplit : List Char → List Char × List Char
  | [] => ([], [])
  | c :: rest =>
    if '/' ∈ rest then
      (c :: (goPathSplit rest).1, (goPathSplit rest).2)
    else if c = '/' then ([c], rest)
    else ([], c :: rest)

/-- `FileDescriptor.mdNode`: split the path, strip a trailing separator
from the directory part, and emit `MDNode([MDString(filename),
MDString(dirname)])`.  It ignores the `*DebugInfo` receiver argument. -/
def FileDescriptor.mdNode (d : FileDescriptor) : Value :=
  let dirname := (goPathSplit d.data).1
  let filename := (goPathSplit d.data).2
  let dirname := if dirname.getLast? = some '/' then dirname.dropLast else dirname
  Value.node [Value.mdString (String.mk filename), Value.mdString (String.mk dirname)]

/-- `uint64(v)` for an `int32` value: two's-complement reinterpretation. -/
def uint64OfInt32 (v : Int) : Nat := (v % (2 ^ 64)).toNat

/-- The mutable innards of a `DebugInfo` lowering pass: the memoization
cache `map[DebugDescriptor]Value` (an association list keyed by arena
index, most recent entry first) plus an instrumentation log recording,
in order, each arena index whose `mdNode` method was invoked. -/
structure DIState where
  cache : List (Nat × Value)
  log : List Nat

mutual

/-- `DebugInfo.MDNode`: nil references (either flavour) yield `Value{nil}`
without touching the cache; otherwise the cache is consulted and, on a
miss, the descriptor's own `mdNode` is invoked and its result stored
keyed by the descriptor's identity.  Fuel bounds the recursion depth;
`none` means the fuel ran out (the Go code would still be recursing). -/
def MDNodeF (heap : List Desc) : Nat → DescRef → DIState → Option (Value × DIState)
  | _, DescRef.nilIface, st => some (Value.nilV, st)
  | _, DescRef.nilPtr, st => some (Value.nilV, st)
  | 0, DescRef.ref id, st =>
    match st.cache.lookup id with
    | some v => some (v, st)
    | none => none
  | fuel + 1, DescRef.ref id, st =>
    match st.cache.lookup id with
    | some v => some (v, st)
    | none =>
      match heap[id]? with
      | none => none
      | some d =>
        match mdNodeOf heap fuel d { cache := st.cache, log := st.log ++ [id] } with
        | none => none
        | some (v, st2) => some (v, { cache := (id, v) :: st2.cache, log := st2.log })

/-- `DebugInfo.MDNodes`: lower an ordered sequence of descriptor
references, threading the cache left to right. -/
def MDNodesF (heap : List Desc) : Nat → List DescRef → DIState → Option (List Value × DIState)
  | _, [], st => some ([], st)
  | 0, _ :: _, _ => none
  | fuel + 1, r :: rest, st =>
    match MDNodeF heap fuel r st with
    | none => none
    | some (v, st1) =>
      match MDNodesF heap fuel rest st1 with
      | none => none
      | some (vs, st2) => some (v :: vs, st2)

/-- The `mdNode` method of each descriptor variant: the ordered field
tuple exactly as built in the source, with reference-typed fields
lowered through the cache in source order. -/
def mdNodeOf (heap : List Desc) : Nat → Desc → DIState → Option (Value × DIState)
  | _, Desc.file p, st => some (FileDescriptor.mdNode p, st)
  | _, Desc.context c, st =>
    some (Value.node [
      Value.constInt IntTy.i32 (DW_TAG_file_type + LLVMDebugVersion) false,
      FileDescriptor.mdNode c.FileDescriptor], st)
  | 0, Desc.basic _, _ => none
  | fuel + 1, Desc.basic d, st =>
    match MDNodeF heap fuel d.File st with
    | none => none
    | some (vFile, st1) =>
      match MDNodeF heap fuel d.Context st1 with
      | none => none
      | some (vCtx, st2) =>
        some (Value.node [
          Value.constInt IntTy.i32 (LLVMDebugVersion + DW_TAG_base_type) false,
          vFile,
          vCtx,
          Value.mdString d.Name,
          Value.constInt IntTy.i32 d.Line false,
          Value.constInt IntTy.i64 d.Size false,
          Value.constInt IntTy.i64 d.Alignment false,
          Value.constInt IntTy.i64 d.Offset false,
          Value.constInt IntTy.i32 d.Flags false,
          Value.constInt IntTy.i32 d.TypeEncoding false], st2)
  | 0, Desc.composite _, _ => none
  | fuel + 1, Desc.composite d, st =>
    match MDNodeF heap fuel d.File st with
    | none => none
    | some (vFile, st1) =>
      match MDNodeF heap fuel d.Context st1 with
      | none => none
      | some (vCtx, st2) =>
        match MDNodeF heap fuel DescRef.nilIface st2 with
        | none => none
        | some (vDerived, st3) =>
          match MDNodesF heap fuel d.Members st3 with
          | none => none
          | some (vMembers, st4) =>
            some (Value.node [
              Value.constInt IntTy.i32 (LLVMDebugVersion + d.tag) false,
              vFile,
              vCtx,
              Value.mdString d.Name,
              Value.constInt IntTy.i32 d.Line false,
              Value.constInt IntTy.i64 d.Size false,
              Value.constInt IntTy.i64 d.Alignment false,
              Value.constInt IntTy.i64 d.Offset false,
              Value.constInt IntTy.i32 d.Flags false,
              vDerived,
              Value.node vMembers,
              Value.constInt IntTy.i32 0 false,
              Value.constInt IntTy.i32 0 false], st4)
  | 0, Desc.derived _, _ => none
  | fuel + 1, Desc.derived d, st =>
    match MDNodeF heap fuel d.File st with
    | none => none
    | some (vFile, st1) =>
      match MDNodeF heap fuel d.Context st1 with
      | none => none
      | some (vCtx, st2) =>
        match MDNodeF heap fuel d.Base st2 with
        | none => none
        | some (vBase, st3) =>
          some (Value.node [
            Value.constInt IntTy.i32 (LLVMDebugVersion + d.tag) false,
            vFile,
            vCtx,
            Value.mdString d.Name,
            Value.constInt IntTy.i32 d.Line false,
            Value.constInt IntTy.i64 d.Size false,
            Value.constInt IntTy.i64 d.Alignment false,
            Value.constInt IntTy.i64 d.Offset false,
            Value.constInt IntTy.i32 d.Flags false,
            vBase], st3)
  | 0, Desc.compileUnit _, _ => none
  | fuel + 1, Desc.compileUnit d, st =>
    match MDNodesF heap fuel d.EnumTypes st with
    | none => none
    | some (vEnum, st1) =>
      match MDNodesF heap fuel d.RetainedTypes st1 with
      | none => none
      | some (vRet, st2) =>
        match MDNodesF heap fuel d.Subprograms st2 with
        | none => none
        | some (vSub, st3) =>
          match MDNodesF heap fuel d.GlobalVariables st3 with
          | none => none
          | some (vGlob, st4) =>
            some (Value.node [
              Value.constInt IntTy.i32 (DW_TAG_compile_unit + LLVMDebugVersion) false,
              FileDescriptor.mdNode d.Path,
              Value.constInt IntTy.i32 d.Language false,
              Value.mdString d.Producer,
              constInt1 d.Optimized,
              Value.mdString d.CompilerFlags,
              Value.constInt IntTy.i32 (uint64OfInt32 d.Runtime) false,
              Value.node vEnum,
              Value.node vRet,
              Value.node vSub,
              Value.node vGlob,
              Value.node [],
              Value.mdString ""], st4)
  | 0, Desc.subprogram _, _ => none
  | fuel + 1, Desc.subprogram d, st =>
    match MDNodeF heap fuel d.Context st with
    | none => none
    | some (vCtx, st1) =>
      match MDNodeF heap fuel d.Type' st1 with
      | none => none
      | some (vType, st2) =>
        match MDNodeF heap fuel DescRef.nilIface st2 with
        | none => none
        | some (vVt, st3) =>
          match MDNodeF heap fuel DescRef.nilIface st3 with
          | none => none
          | some (vTmpl, st4) =>
            match MDNodeF heap fuel DescRef.nilIface st4 with
            | none => none
            | some (vDecl, st5) =>
              some (Value.node [
                Value.constInt IntTy.i32 (LLVMDebugVersion + DW_TAG_subprogram) false,
                FileDescriptor.mdNode d.Path,
                vCtx,
                Value.mdString d.Name,
                Value.mdString d.DisplayName,
                Value.mdString "",
                Value.constInt IntTy.i32 d.Line false,
                vType,
                Value.constNull IntTy.i1,
                Value.constAllOnes IntTy.i1,
                Value.constNull IntTy.i32,
                Value.constNull IntTy.i32,
                vVt,
                Value.constInt IntTy.i32 FlagPrototyped false,
                Value.constNull IntTy.i1,
                d.Function,
                vTmpl,
                vDecl,
                Value.node [],
                Value.constInt IntTy.i32 d.ScopeLine false], st5)
  | 0, Desc.globalVariable _, _ => none
  | fuel + 1, Desc.globalVariable d, st =>
    match MDNodeF heap fuel d.Context st with
    | none => none
    | some (vCtx, st1) =>
      match MDNodeF heap fuel d.File st1 with
      | none => none
      | some (vFile, st2) =>
        match MDNodeF heap fuel d.Type' st2 with
        | none => none
        | some (vType, st3) =>
          some (Value.node [
            Value.constInt IntTy.i32 (DW_TAG_variable + LLVMDebugVersion) false,
            Value.constNull IntTy.i32,
            vCtx,
            Value.mdString d.Name,
            Value.mdString d.DisplayName,
            Value.node [],
            vFile,
            Value.constInt IntTy.i32 d.Line false,
            vType,
            constInt1 d.Local,
            constInt1 (!d.External),
            d.Value'], st3)
  | 0, Desc.localVariable _, _ => none
  | fuel + 1, Desc.localVariable d, st =>
    match MDNodeF heap fuel d.Context st with
    | none => none
    | some (vCtx, st1) =>
      match MDNodeF heap fuel d.File st1 with
      | none => none
      | some (vFile, st2) =>
        match MDNodeF heap fuel d.Type' st2 with
        | none => none
        | some (vType, st3) =>
          some (Value.node [
            Value.constInt IntTy.i32 (d.tag + LLVMDebugVersion) false,
            vCtx,
            Value.mdString d.Name,
            vFile,
            Value.constInt IntTy.i32 (Nat.lor d.Line (d.Argument <<< 24)) false,
            vType,
            Value.constNull IntTy.i32,
            Value.constNull IntTy.i32], st3)
  | 0, Desc.line _, _ => none
  | fuel + 1, Desc.line d, st =>
    match MDNodeF heap fuel d.Context st with
    | none => none
    | some (vCtx, st1) =>
      match MDNodeF heap fuel DescRef.nilIface st1 with
      | none => none
      | some (vInl, st2) =>
        some (Value.node [
          Value.constInt IntTy.i32 d.Line false,
          Value.constInt IntTy.i32 d.Column false,
          vCtx,
          vInl], st2)
  | 0, Desc.block _, _ => none
  | fuel + 1, Desc.block d, st =>
    match MDNodeF heap fuel d.File st with
    | none => none
    | some (vFile, st1) =>
      match MDNodeF heap fuel d.Context st1 with
      | none => none
      | some (vCtx, st2) =>
        some (Value.node [
          Value.constInt IntTy.i32 (DW_TAG_lexical_block + LLVMDebugVersion) false,
          vFile,
          vCtx,
          Value.constInt IntTy.i32 d.Line false,
          Value.constInt IntTy.i32 d.Column false,
          Value.constInt IntTy.i32 d.Id false], st2)

end

/-- `NewSubroutineCompositeType`: a zero-initialized composite descriptor
with the subroutine tag and `Members = Result` followed by `Params`
(built via `make`/`copy` in the source). -/
def NewSubroutineCompositeType (Result : DescRef) (Params : List DescRef) :
    CompositeTypeDescriptor :=
  { tag := DW_TAG_subroutine_type
    Context := DescRef.nilIface
    Name := ""
    File := DescRef.nilPtr
    Line := 0
    Size := 0
    Alignment := 0
    Offset := 0
    Flags := 0
    Members := Result :: Params }

/-- `NewStructCompositeType`. -/
def NewStructCompositeType (Members : List DescRef) : CompositeTypeDescriptor :=
  { tag := DW_TAG_structure_type
    Context := DescRef.nilIface
    Name := ""
    File := DescRef.nilPtr
    Line := 0
    Size := 0
    Alignment := 0
    Offset := 0
    Flags := 0
    Members := Members }

/-- The function handle returned by the intrinsic catalog, as far as
`InsertDeclare` can observe it: whether `IsAFunction()` yields a
non-nil value, and its reported `Name()`. -/
structure FnHandle where
  isFunction : Bool
  name : String
deriving DecidableEq, Repr

/-- The call instruction `CreateCall(fn, args, name)` builds. -/
structure CallInst where
  fn : FnHandle
  args : List Value
  name : String

/-- `Builder.InsertDeclare`: fetch the declare intrinsic via the catalog
accessor, panic (modelled as `Except.error` carrying the panic message)
unless the handle is a function named `llvm.dbg.declare`, otherwise
emit a call with the storage value and the metadata node. -/
def InsertDeclare (getDeclare : Nat → FnHandle) (module : Nat)
    (storage md : Value) : Except String CallInst :=
  let nf := getDeclare module
  if nf.isFunction = false ∨ nf.name ≠ "llvm.dbg.declare" then
    Except.error ("Wanted llvm.dbg.declare but got: " ++ nf.name)
  else
    Except.ok { fn := nf, args := [storage, md], name := "" }

/-- `getDbgDeclare` from `debug2.cpp`: start from the `dbg_declare`
intrinsic id, apply the `id++` adjustment the source insists on, then
call the catalog lookup `Intrinsic::getDeclaration(module, id)`. -/
def getDbgDeclare {α : Type} (getDeclaration : Nat → Nat → α)
    (dbg_declare : Nat) (module : Nat) : α :=
  let id := dbg_declare
  let id := id + 1
  getDeclaration module id

/-- Whether a value is an integer constant (`ConstInt`). -/
def Value.isConstInt : Value → Bool
  | .constInt _ _ _ => true
  | _ => false

/-- The arena's reference graph is ranked by index: every reference held
by a descriptor points to a strictly smaller index.  This is the
acyclicity discipline under which the source's lowering terminates (the
spec itself documents that true reference cycles make `MDNode` recurse
without bound, so they are outside the supported domain). -/
def HeapOrdered (heap : List Desc) : Prop :=
  ∀ i d, heap[i]? = some d → ∀ k, DescRef.ref k ∈ d.refs → k < i

/-- Between two states of one lowering pass, the invocation log grew by
a suffix whose entries are all below the bound `b`. -/
def LogBound (st st' : DIState) (b : Nat) : Prop :=
  ∃ ext, st'.log = st.log ++ ext ∧ ∀ j ∈ ext, j < b

/-- Concrete arena used by the witnesses: a single file descriptor. -/
def exampleHeap : List Desc := [Desc.file "main.x"]

/-- The lowered node of `FileDescriptor("main.x")`. -/
def mainFileNode : Value := Value.node [Value.mdString "main.x", Value.mdString ""]

/-- The spec's example BasicType descriptor: named "int", size 32,
alignment 32, offset 0, signed encoding, flags 0, file "main.x"
(arena index 0), line 5. -/
def basicIntExample : BasicTypeDescriptor :=
  { Context := DescRef.nilIface
    Name := "int"
    File := DescRef.ref 0
    Line := 5
    Size := 32
    Alignment := 32
    Offset := 0
    Flags := 0
    TypeEncoding := DW_ATE_signed }

/-- The spec's example LocalVariable descriptor: line 10, argument 2. -/
def localVarExample : LocalVariableDescriptor :=
  { tag := DW_TAG_arg_variable
    Context := DescRef.nilIface
    Name := "x"
    File := DescRef.nilPtr
    Line := 10
    Argument := 2
    Type' := DescRef.nilIface }

/-- A concrete lexical-block descriptor used as a witness input. -/
def blockExample : BlockDescriptor :=
  { File := DescRef.nilPtr
    Context := DescRef.nilIface
    Line := 3
    Column := 7
    Id := 1 }

/-- Statement: a successful `MDNodeF` run from a reference bounded by
`b` only ever logs indices below `b`. -/
abbrev MDNodeLogBound (heap : List Desc) (fuel : Nat) : Prop :=
  ∀ b r st out, (∀ i, r = DescRef.ref i → i < b) →
    MDNodeF heap fuel r st = some out → LogBound st out.2 b

/-- Statement: a successful `MDNodesF` run over references bounded by
`b` only ever logs indices below `b`. -/
abbrev MDNodesLogBound (heap : List Desc) (fuel : Nat) : Prop :=
  ∀ b l st out, (∀ i, DescRef.ref i ∈ l → i < b) →
    MDNodesF heap fuel l st = some out → LogBound st out.2 b

/-- Statement: a successful `mdNodeOf` run on a descriptor whose
references are bounded by `b` only ever logs indices below `b`. -/
abbrev MDNodeOfLogBound (heap : List Desc) (fuel : Nat) : Prop :=
  ∀ b d st out, (∀ i, DescRef.ref i ∈ Desc.refs d → i < b) →
    mdNodeOf heap fuel d st = some out → LogBound st out.2 b

theorem logBound_self (st : DIState) (b : Nat) : LogBound st st b :=
  ⟨[], (List.append_nil _).symm, by simp⟩

theorem logBound_trans {s t u : DIState} {b : Nat}
    (h1 : LogBound s t b) (h2 : LogBound t u b) : LogBound s u b := by
  obtain ⟨e1, he1, hb1⟩ := h1
  obtain ⟨e2, he2, hb2⟩ := h2
  refine ⟨e1 ++ e2, by rw [he2, he1, List.append_assoc], ?_⟩
  intro j hj
  rcases List.mem_append.mp hj with h | h
  · exact hb1 j h
  · exact hb2 j h

theorem refBound_of_mem {l : List DescRef} {b : Nat}
    (hb : ∀ i, DescRef.ref i ∈ l → i < b) {r : DescRef} (hr : r ∈ l) :
    ∀ i, r = DescRef.ref i → i < b :=
  fun i hi => hb i (hi ▸ hr)

/-- C2: lowering an absent/nil descriptor reference — a nil interface or
a nil pointer boxed in a non-nil interface — returns the fixed nil node
`Value{nil}`, returns normally (no crash), and leaves the whole lowering
state, in particular the cache, unchanged. -/
theorem mdnode_nil_returns_empty (heap : List Desc) (fuel : Nat) (st : DIState) :
    MDNodeF heap fuel DescRef.nilIface st = some (Value.nilV, st)
    ∧ MDNodeF heap fuel DescRef.nilPtr st = some (Value.nilV, st) := by
  constructor <;> cases fuel <;> rfl

/-- C7: the `Tag` accessor of the Line descriptor variant panics
(modelled as returning `none`) instead of producing a tag value. -/
theorem lineDescriptor_tag_aborts (d : LineDescriptor) :
    Desc.Tag (Desc.line d) = none := rfl

/-- C10: `NewSubroutineCompositeType` returns a composite descriptor
tagged `DW_TAG_subroutine_type` whose member sequence is the result
descriptor followed by the parameters in order, of length `len(P)+1`. -/
theorem newSubroutineCompositeType_members (Result : DescRef) (Params : List DescRef) :
    (NewSubroutineCompositeType Result Params).tag = DW_TAG_subroutine_type
    ∧ (NewSubroutineCompositeType Result Params).Members = Result :: Params
    ∧ (NewSubroutineCompositeType Result Params).Members.length = Params.length + 1 :=
  ⟨rfl, rfl, by simp [NewSubroutineCompositeType]⟩

/-- C9 counterexample: with a catalog lookup that reports back the id it
received, `getDbgDeclare` starting from intrinsic id 5 performs the
lookup at id 6, not at 5 — the source increments the id (`id++`) before
calling `Intrinsic::getDeclaration`. -/
theorem getDbgDeclare_id_cex :
    getDbgDeclare (fun _ i => i) 5 0 = 6 ∧ getDbgDeclare (fun _ i => i) 5 0 ≠ 5 :=
  ⟨rfl, by decide⟩

/-- C9 (amended): the intrinsic id `getDbgDeclare` passes to the catalog
lookup is the `dbg_declare` id incremented by one. -/
theorem getDbgDeclare_passes_incremented_id {α : Type} (getDeclaration : Nat → Nat → α)
    (dbg_declare module : Nat) :
    getDbgDeclare getDeclaration dbg_declare module =
      getDeclaration module (dbg_declare + 1) := rfl

/-- C8: `InsertDeclare` fails fatally — with a message naming the handle
it actually got — exactly when the catalog's handle is not a function or
is not named `llvm.dbg.declare`; otherwise it emits a call to that
handle with precisely the arguments `[storage, md]` in that order. -/
theorem insertDeclare_contract (getDeclare : Nat → FnHandle) (module : Nat)
    (storage md : Value) :
    (((getDeclare module).isFunction = false ∨ (getDeclare module).name ≠ "llvm.dbg.declare") →
      InsertDeclare getDeclare module storage md =
        Except.error ("Wanted llvm.dbg.declare but got: " ++ (getDeclare module).name))
    ∧ (((getDeclare module).isFunction = true ∧ (getDeclare module).name = "llvm.dbg.declare") →
      InsertDeclare getDeclare module storage md =
        Except.ok { fn := getDeclare module, args := [storage, md], name := "" }) := by
  constructor
  · intro h
    simp only [InsertDeclare]
    rw [if_pos h]
  · intro h
    have hc : ¬((getDeclare module).isFunction = false
        ∨ (getDeclare module).name ≠ "llvm.dbg.declare") := by
      push_neg
      exact ⟨by simp [h.1], h.2⟩
    simp only [InsertDeclare]
    rw [if_neg hc]

/-- C8 witness: a wrongly-named non-function handle trips the fatal
error with its name in the message; the genuine `llvm.dbg.declare`
handle yields the two-argument call. -/
theorem insertDeclare_contract_instances :
    InsertDeclare (fun _ => { isFunction := false, name := "x" }) 0 Value.nilV Value.nilV =
      Except.error "Wanted llvm.dbg.declare but got: x"
    ∧ InsertDeclare (fun _ => { isFunction := true, name := "llvm.dbg.declare" }) 0
        (Value.handle 1) (Value.handle 2) =
      Except.ok { fn := { isFunction := true, name := "llvm.dbg.declare" }
                  args := [Value.handle 1, Value.handle 2]
                  name := "" } :=
  ⟨(insertDeclare_contract (fun _ => { isFunction := false, name := "x" }) 0
      Value.nilV Value.nilV).1 (Or.inl rfl),
   (insertDeclare_contract (fun _ => { isFunction := true, name := "llvm.dbg.declare" }) 0
      (Value.handle 1) (Value.handle 2)).2 ⟨rfl, rfl⟩⟩

theorem goPathSplit_no_slash : ∀ s : List Char, '/' ∉ s → goPathSplit s = ([], s)
  | [], _ => rfl
  | c :: rest, h => by
    have h1 : '/' ∉ rest := fun hm => h (List.mem_cons_of_mem _ hm)
    have h2 : ¬(c = '/') := fun he => h (he ▸ List.mem_cons_self c rest)
    simp [goPathSplit, h1, h2]

theorem goPathSplit_last_slash : ∀ dir fname : List Char, '/' ∉ fname →
    goPathSplit (dir ++ '/' :: fname) = (dir ++ ['/'], fname)
  | [], fname, h => by simp [goPathSplit, h]
  | c :: dir, fname, h => by
    have hmem : '/' ∈ dir ++ '/' :: fname :=
      List.mem_append.mpr (Or.inr (List.mem_cons_self _ _))
    show goPathSplit (c :: (dir ++ '/' :: fname)) = ((c :: dir) ++ ['/'], fname)
    rw [goPathSplit, if_pos hmem, goPathSplit_last_slash dir fname h]
    rfl

/-- C6: `FileDescriptor.mdNode` splits the stored path at the last
separator into filename and directory, stripping the trailing separator
from the directory part; a path with no separator splits into itself and
the empty directory. -/
theorem fileDescriptor_path_split :
    (∀ dir fname : List Char, '/' ∉ fname →
      FileDescriptor.mdNode (String.mk (dir ++ '/' :: fname)) =
        Value.node [Value.mdString (String.mk fname), Value.mdString (String.mk dir)])
    ∧ (∀ s : List Char, '/' ∉ s →
      FileDescriptor.mdNode (String.mk s) =
        Value.node [Value.mdString (String.mk s), Value.mdString ""]) := by
  constructor
  · intro dir fname h
    simp only [FileDescriptor.mdNode, String.mk, goPathSplit_last_slash dir fname h]
    rw [if_pos (by simp), List.dropLast_concat]
  · intro s h
    simp only [FileDescriptor.mdNode, String.mk, goPathSplit_no_slash s h]
    rw [if_neg (by simp)]

/-- C6 witness: `File("/a/b/c.x")` lowers to filename `"c.x"` and
directory `"/a/b"`; `File("c.x")` lowers to filename `"c.x"` and the
empty directory. -/
theorem fileDescriptor_path_split_examples :
    FileDescriptor.mdNode "/a/b/c.x" =
      Value.node [Value.mdString "c.x", Value.mdString "/a/b"]
    ∧ FileDescriptor.mdNode "c.x" =
      Value.node [Value.mdString "c.x", Value.mdString ""] :=
  ⟨fileDescriptor_path_split.1 ['/', 'a', '/', 'b'] ['c', '.', 'x'] (by decide),
   fileDescriptor_path_split.2 ['c', '.', 'x'] (by decide)⟩

/-- C3: the lowered node of every BasicType descriptor has exactly the
ten fields tag+version, file, context, name, line, size, alignment,
offset, flags, type-encoding, in that order. -/
theorem basicType_layout (heap : List Desc) (fuel : Nat) (d : BasicTypeDescriptor)
    (st : DIState) (out : Value × DIState)
    (h : mdNodeOf heap fuel (Desc.basic d) st = some out) :
    ∃ vFile vCtx : Value,
      out.1 = Value.node [
        Value.constInt IntTy.i32 (LLVMDebugVersion + DW_TAG_base_type) false,
        vFile,
        vCtx,
        Value.mdString d.Name,
        Value.constInt IntTy.i32 d.Line false,
        Value.constInt IntTy.i64 d.Size false,
        Value.constInt IntTy.i64 d.Alignment false,
        Value.constInt IntTy.i64 d.Offset false,
        Value.constInt IntTy.i32 d.Flags false,
        Value.constInt IntTy.i32 d.TypeEncoding false] := by
  cases fuel with
  | zero => simp [mdNodeOf] at h
  | succ f =>
    rw [mdNodeOf] at h
    cases hF : MDNodeF heap f d.File st with
    | none => simp [hF] at h
    | some pF =>
      obtain ⟨vF, st1⟩ := pF
      simp only [hF] at h
      cases hC : MDNodeF heap f d.Context st1 with
      | none => simp [hC] at h
      | some pC =>
        obtain ⟨vC, st2⟩ := pC
        simp only [hC, Option.some.injEq] at h
        exact ⟨vF, vC, by rw [← h]⟩

/-- C3 witness: the spec's example BasicType (named "int", size 32,
alignment 32, offset 0, signed, flags 0, file "main.x", line 5) lowers
to the ten-field node whose first field is `(12<<16) + 0x24`. -/
theorem basicType_layout_example :
    ∃ vFile vCtx : Value,
      (Value.node [
        Value.constInt IntTy.i32 ((12 <<< 16) + 0x24) false,
        mainFileNode,
        Value.nilV,
        Value.mdString "int",
        Value.constInt IntTy.i32 5 false,
        Value.constInt IntTy.i64 32 false,
        Value.constInt IntTy.i64 32 false,
        Value.constInt IntTy.i64 0 false,
        Value.constInt IntTy.i32 0 false,
        Value.constInt IntTy.i32 DW_ATE_signed false] : Value) =
      Value.node [
        Value.constInt IntTy.i32 (LLVMDebugVersion + DW_TAG_base_type) false,
        vFile,
        vCtx,
        Value.mdString "int",
        Value.constInt IntTy.i32 5 false,
        Value.constInt IntTy.i64 32 false,
        Value.constInt IntTy.i64 32 false,
        Value.constInt IntTy.i64 0 false,
        Value.constInt IntTy.i32 0 false,
        Value.constInt IntTy.i32 DW_ATE_signed false] :=
  basicType_layout exampleHeap 2 basicIntExample { cache := [], log := [] }
    (Value.node [
      Value.constInt IntTy.i32 ((12 <<< 16) + 0x24) false,
      mainFileNode,
      Value.nilV,
      Value.mdString "int",
      Value.constInt IntTy.i32 5 false,
      Value.constInt IntTy.i64 32 false,
      Value.constInt IntTy.i64 32 false,
      Value.constInt IntTy.i64 0 false,
      Value.constInt IntTy.i32 0 false,
      Value.constInt IntTy.i32 DW_ATE_signed false],
     { cache := [(0, mainFileNode)], log := [0] })
    rfl

/-- C5: the lowered node of every LocalVariable descriptor carries, as
its combined line field, the integer constant `Line | (Argument << 24)`. -/
theorem localVariable_line_encoding (heap : List Desc) (fuel : Nat)
    (d : LocalVariableDescriptor) (st : DIState) (out : Value × DIState)
    (h : mdNodeOf heap fuel (Desc.localVariable d) st = some out) :
    ∃ vCtx vFile vType : Value,
      out.1 = Value.node [
        Value.constInt IntTy.i32 (d.tag + LLVMDebugVersion) false,
        vCtx,
        Value.mdString d.Name,
        vFile,
        Value.constInt IntTy.i32 (Nat.lor d.Line (d.Argument <<< 24)) false,
        vType,
        Value.constNull IntTy.i32,
        Value.constNull IntTy.i32] := by
  cases fuel with
  | zero => simp [mdNodeOf] at h
  | succ f =>
    rw [mdNodeOf] at h
    cases hC : MDNodeF heap f d.Context st with
    | none => simp [hC] at h
    | some pC =>
      obtain ⟨vC, st1⟩ := pC
      simp only [hC] at h
      cases hF : MDNodeF heap f d.File st1 with
      | none => simp [hF] at h
      | some pF =>
        obtain ⟨vF, st2⟩ := pF
        simp only [hF] at h
        cases hT : MDNodeF heap f d.Type' st2 with
        | none => simp [hT] at h
        | some pT =>
          obtain ⟨vT, st3⟩ := pT
          simp only [hT, Option.some.injEq] at h
          exact ⟨vC, vF, vT, by rw [← h]⟩

/-- C5 witness: a LocalVariable with line 10 and argument index 2 lowers
with combined line field `10 | (2 << 24)`. -/
theorem localVariable_line_encoding_example :
    ∃ vCtx vFile vType : Value,
      (Value.node [
        Value.constInt IntTy.i32 (DW_TAG_arg_variable + LLVMDebugVersion) false,
        Value.nilV,
        Value.mdString "x",
        Value.nilV,
        Value.constInt IntTy.i32 (Nat.lor 10 (2 <<< 24)) false,
        Value.nilV,
        Value.constNull IntTy.i32,
        Value.constNull IntTy.i32] : Value) =
      Value.node [
        Value.constInt IntTy.i32 (DW_TAG_arg_variable + LLVMDebugVersion) false,
        vCtx,
        Value.mdString "x",
        vFile,
        Value.constInt IntTy.i32 (Nat.lor 10 (2 <<< 24)) false,
        vType,
        Value.constNull IntTy.i32,
        Value.constNull IntTy.i32] :=
  localVariable_line_encoding [] 1 localVarExample { cache := [], log := [] }
    (Value.node [
      Value.constInt IntTy.i32 (DW_TAG_arg_variable + LLVMDebugVersion) false,
      Value.nilV,
      Value.mdString "x",
      Value.nilV,
      Value.constInt IntTy.i32 (Nat.lor 10 (2 <<< 24)) false,
      Value.nilV,
      Value.constNull IntTy.i32,
      Value.constNull IntTy.i32],
     { cache := [], log := [] })
    rfl

theorem mdNodeF_nilIface (heap : List Desc) (fuel : Nat) (st : DIState) :
    MDNodeF heap fuel DescRef.nilIface st = some (Value.nilV, st) := by
  cases fuel <;> rfl

theorem mdNodeF_nilPtr (heap : List Desc) (fuel : Nat) (st : DIState) :
    MDNodeF heap fuel DescRef.nilPtr st = some (Value.nilV, st) := by
  cases fuel <;> rfl

/-- C4 counterexample: the claim "every variant's first field is
`version_constant + tag`" fails for the File variant: `File("c.x")`
lowers to a node whose first field is the filename string, not an
integer constant. -/
theorem first_field_claim_fails_for_file :
    mdNodeOf [] 0 (Desc.file "c.x") { cache := [], log := [] } =
      some (Value.node [Value.mdString "c.x", Value.mdString ""], { cache := [], log := [] })
    ∧ Value.isConstInt (Value.mdString "c.x") = false :=
  ⟨rfl, rfl⟩

/-- C4 (amended): for every descriptor variant except File and Line, the
first field of the lowered node is the integer constant
`version_constant + tag` with `version_constant = 12 << 16`; a File node
begins with its filename string and a Line node with its line number. -/
theorem first_field_version_tag (heap : List Desc) (fuel : Nat) (d : Desc)
    (st : DIState) (out : Value × DIState)
    (hf : Desc.isFile d = false) (hl : Desc.isLine d = false)
    (h : mdNodeOf heap fuel d st = some out) :
    ∃ t rest, Desc.Tag d = some t
      ∧ out.1 = Value.node (Value.constInt IntTy.i32 (LLVMDebugVersion + t) false :: rest) := by
  cases d with
  | file p => simp [Desc.isFile] at hf
  | line p => simp [Desc.isLine] at hl
  | context c =>
    cases fuel <;>
    · rw [mdNodeOf] at h
      simp only [Option.some.injEq] at h
      exact ⟨DW_TAG_file_type, _, rfl,
        by rw [← h, Nat.add_comm DW_TAG_file_type LLVMDebugVersion]⟩
  | basic d =>
    cases fuel with
    | zero => simp [mdNodeOf] at h
    | succ f =>
      rw [mdNodeOf] at h
      cases hF : MDNodeF heap f d.File st with
      | none => simp [hF] at h
      | some pF =>
        obtain ⟨vF, st1⟩ := pF
        simp only [hF] at h
        cases hC : MDNodeF heap f d.Context st1 with
        | none => simp [hC] at h
        | some pC =>
          obtain ⟨vC, st2⟩ := pC
          simp only [hC, Option.some.injEq] at h
          exact ⟨DW_TAG_base_type, _, rfl, by rw [← h]⟩
  | composite d =>
    cases fuel with
    | zero => simp [mdNodeOf] at h
    | succ f =>
      rw [mdNodeOf] at h
      cases hF : MDNodeF heap f d.File st with
      | none => simp [hF] at h
      | some pF =>
        obtain ⟨vF, st1⟩ := pF
        simp only [hF] at h
        cases hC : MDNodeF heap f d.Context st1 with
        | none => simp [hC] at h
        | some pC =>
          obtain ⟨vC, st2⟩ := pC
          simp only [hC, mdNodeF_nilIface] at h
          cases hM : MDNodesF heap f d.Members st2 with
          | none => simp [hM] at h
          | some pM =>
            obtain ⟨vM, st3⟩ := pM
            simp only [hM, Option.some.injEq] at h
            exact ⟨d.tag, _, rfl,
              by rw [← h, Nat.add_comm LLVMDebugVersion d.tag]⟩
  | derived d =>
    cases fuel with
    | zero => simp [mdNodeOf] at h
    | succ f =>
      rw [mdNodeOf] at h
      cases hF : MDNodeF heap f d.File st with
      | none => simp [hF] at h
      | some pF =>
        obtain ⟨vF, st1⟩ := pF
        simp only [hF] at h
        cases hC : MDNodeF heap f d.Context st1 with
        | none => simp [hC] at h
        | some pC =>
          obtain ⟨vC, st2⟩ := pC
          simp only [hC] at h
          cases hB : MDNodeF heap f d.Base st2 with
          | none => simp [hB] at h
          | some pB =>
            obtain ⟨vB, st3⟩ := pB
            simp only [hB, Option.some.injEq] at h
            exact ⟨d.tag, _, rfl,
              by rw [← h, Nat.add_comm LLVMDebugVersion d.tag]⟩
  | compileUnit d =>
    cases fuel with
    | zero => simp [mdNodeOf] at h
    | succ f =>
      rw [mdNodeOf] at h
      cases hE : MDNodesF heap f d.EnumTypes st with
      | none => simp [hE] at h
      | some pE =>
        obtain ⟨vE, st1⟩ := pE
        simp only [hE] at h
        cases hR : MDNodesF heap f d.RetainedTypes st1 with
        | none => simp [hR] at h
        | some pR =>
          obtain ⟨vR, st2⟩ := pR
          simp only [hR] at h
          cases hS : MDNodesF heap f d.Subprograms st2 with
          | none => simp [hS] at h
          | some pS =>
            obtain ⟨vS, st3⟩ := pS
            simp only [hS] at h
            cases hG : MDNodesF heap f d.GlobalVariables st3 with
            | none => simp [hG] at h
            | some pG =>
              obtain ⟨vG, st4⟩ := pG
              simp only [hG, Option.some.injEq] at h
              exact ⟨DW_TAG_compile_unit, _, rfl,
                by rw [← h, Nat.add_comm DW_TAG_compile_unit LLVMDebugVersion]⟩
  | subprogram d =>
    cases fuel with
    | zero => simp [mdNodeOf] at h
    | succ f =>
      rw [mdNodeOf] at h
      cases hC : MDNodeF heap f d.Context st with
      | none => simp [hC] at h
      | some pC =>
        obtain ⟨vC, st1⟩ := pC
        simp only [hC] at h
        cases hT : MDNodeF heap f d.Type' st1 with
        | none => simp [hT] at h
        | some pT =>
          obtain ⟨vT, st2⟩ := pT
          simp only [hT, mdNodeF_nilIface, Option.some.injEq] at h
          exact ⟨DW_TAG_subprogram, _, rfl, by rw [← h]⟩
  | globalVariable d =>
    cases fuel with
    | zero => simp [mdNodeOf] at h
    | succ f =>
      rw [mdNodeOf] at h
      cases hC : MDNodeF heap f d.Context st with
      | none => simp [hC] at h
      | some pC =>
        obtain ⟨vC, st1⟩ := pC
        simp only [hC] at h
        cases hF : MDNodeF heap f d.File st1 with
        | none => simp [hF] at h
        | some pF =>
          obtain ⟨vF, st2⟩ := pF
          simp only [hF] at h
          cases hT : MDNodeF heap f d.Type' st2 with
          | none => simp [hT] at h
          | some pT =>
            obtain ⟨vT, st3⟩ := pT
            simp only [hT, Option.some.injEq] at h
            exact ⟨DW_TAG_variable, _, rfl,
              by rw [← h, Nat.add_comm DW_TAG_variable LLVMDebugVersion]⟩
  | localVariable d =>
    cases fuel with
    | zero => simp [mdNodeOf] at h
    | succ f =>
      rw [mdNodeOf] at h
      cases hC : MDNodeF heap f d.Context st with
      | none => simp [hC] at h
      | some pC =>
        obtain ⟨vC, st1⟩ := pC
        simp only [hC] at h
        cases hF : MDNodeF heap f d.File st1 with
        | none => simp [hF] at h
        | some pF =>
          obtain ⟨vF, st2⟩ := pF
          simp only [hF] at h
          cases hT : MDNodeF heap f d.Type' st2 with
          | none => simp [hT] at h
          | some pT =>
            obtain ⟨vT, st3⟩ := pT
            simp only [hT, Option.some.injEq] at h
            exact ⟨d.tag, _, rfl,
              by rw [← h, Nat.add_comm d.tag LLVMDebugVersion]⟩
  | block d =>
    cases fuel with
    | zero => simp [mdNodeOf] at h
    | succ f =>
      rw [mdNodeOf] at h
      cases hF : MDNodeF heap f d.File st with
      | none => simp [hF] at h
      | some pF =>
        obtain ⟨vF, st1⟩ := pF
        simp only [hF] at h
        cases hC : MDNodeF heap f d.Context st1 with
        | none => simp [hC] at h
        | some pC =>
          obtain ⟨vC, st2⟩ := pC
          simp only [hC, Option.some.injEq] at h
          exact ⟨DW_TAG_lexical_block, _, rfl,
            by rw [← h, Nat.add_comm DW_TAG_lexical_block LLVMDebugVersion]⟩

/-- C4 witness: a concrete lexical-block descriptor lowers to a node
headed by `version_constant + DW_TAG_lexical_block`. -/
theorem first_field_version_tag_instance :
    ∃ t rest, Desc.Tag (Desc.block blockExample) = some t
      ∧ (Value.node [
          Value.constInt IntTy.i32 (DW_TAG_lexical_block + LLVMDebugVersion) false,
          Value.nilV,
          Value.nilV,
          Value.constInt IntTy.i32 3 false,
          Value.constInt IntTy.i32 7 false,
          Value.constInt IntTy.i32 1 false] : Value) =
        Value.node (Value.constInt IntTy.i32 (LLVMDebugVersion + t) false :: rest) :=
  first_field_version_tag [] 1 (Desc.block blockExample) { cache := [], log := [] }
    (Value.node [
      Value.constInt IntTy.i32 (DW_TAG_lexical_block + LLVMDebugVersion) false,
      Value.nilV,
      Value.nilV,
      Value.constInt IntTy.i32 3 false,
      Value.constInt IntTy.i32 7 false,
      Value.constInt IntTy.i32 1 false],
     { cache := [], log := [] })
    rfl rfl rfl

/-- On an index-ranked arena, every successful lowering only logs
`mdNode` invocations for indices strictly below the bound of the
reference(s) being lowered.  Proved for all three mutually recursive
entry points simultaneously, by induction on the fuel. -/
theorem logBound_main (heap : List Desc) (hord : HeapOrdered heap) :
    ∀ fuel, MDNodeLogBound heap fuel ∧ MDNodesLogBound heap fuel
      ∧ MDNodeOfLogBound heap fuel := by
  intro fuel
  induction fuel with
  | zero =>
    refine ⟨?_, ?_, ?_⟩
    · intro b r st out hb h
      cases r with
      | nilIface =>
        rw [mdNodeF_nilIface] at h
        simp only [Option.some.injEq] at h
        rw [← h]
        exact logBound_self st b
      | nilPtr =>
        rw [mdNodeF_nilPtr] at h
        simp only [Option.some.injEq] at h
        rw [← h]
        exact logBound_self st b
      | ref id =>
        rw [MDNodeF] at h
        cases hl : st.cache.lookup id with
        | some v =>
          simp only [hl, Option.some.injEq] at h
          rw [← h]
          exact logBound_self st b
        | none => simp [hl] at h
    · intro b l st out hb h
      cases l with
      | nil =>
        rw [MDNodesF] at h
        simp only [Option.some.injEq] at h
        rw [← h]
        exact logBound_self st b
      | cons r rest => simp [MDNodesF] at h
    · intro b d st out hb h
      cases d with
      | file p =>
        rw [mdNodeOf] at h
        simp only [Option.some.injEq] at h
        rw [← h]
        exact logBound_self st b
      | context c =>
        rw [mdNodeOf] at h
        simp only [Option.some.injEq] at h
        rw [← h]
        exact logBound_self st b
      | basic d => simp [mdNodeOf] at h
      | composite d => simp [mdNodeOf] at h
      | derived d => simp [mdNodeOf] at h
      | compileUnit d => simp [mdNodeOf] at h
      | subprogram d => simp [mdNodeOf] at h
      | globalVariable d => simp [mdNodeOf] at h
      | localVariable d => simp [mdNodeOf] at h
      | line d => simp [mdNodeOf] at h
      | block d => simp [mdNodeOf] at h
  | succ f ih =>
    obtain ⟨ih1, ih2, ih3⟩ := ih
    refine ⟨?_, ?_, ?_⟩
    · intro b r st out hb h
      cases r with
      | nilIface =>
        rw [mdNodeF_nilIface] at h
        simp only [Option.some.injEq] at h
        rw [← h]
        exact logBound_self st b
      | nilPtr =>
        rw [mdNodeF_nilPtr] at h
        simp only [Option.some.injEq] at h
        rw [← h]
        exact logBound_self st b
      | ref id =>
        rw [MDNodeF] at h
        cases hl : st.cache.lookup id with
        | some v =>
          simp only [hl, Option.some.injEq] at h
          rw [← h]
          exact logBound_self st b
        | none =>
          simp only [hl] at h
          cases hd : heap[id]? with
          | none => simp [hd] at h
          | some d =>
            simp only [hd] at h
            cases hm : mdNodeOf heap f d { cache := st.cache, log := st.log ++ [id] } with
            | none => simp [hm] at h
            | some p =>
              obtain ⟨v, st2⟩ := p
              simp only [hm, Option.some.injEq] at h
              obtain ⟨ext, hext, hlt⟩ :=
                ih3 id d { cache := st.cache, log := st.log ++ [id] } (v, st2)
                  (hord id d hd) hm
              refine ⟨id :: ext, ?_, ?_⟩
              · rw [← h]
                show st2.log = st.log ++ (id :: ext)
                rw [hext, List.append_assoc]
                rfl
              · intro j hj
                rcases List.mem_cons.mp hj with rfl | hj
                · exact hb j rfl
                · exact lt_trans (hlt j hj) (hb id rfl)
    · intro b l st out hb h
      cases l with
      | nil =>
        rw [MDNodesF] at h
        simp only [Option.some.injEq] at h
        rw [← h]
        exact logBound_self st b
      | cons r rest =>
        rw [MDNodesF] at h
        cases h1 : MDNodeF heap f r st with
        | none => simp [h1] at h
        | some p1 =>
          obtain ⟨v, st1⟩ := p1
          simp only [h1] at h
          cases h2 : MDNodesF heap f rest st1 with
          | none => simp [h2] at h
          | some p2 =>
            obtain ⟨vs, st2⟩ := p2
            simp only [h2, Option.some.injEq] at h
            have lb1 : LogBound st st1 b :=
              ih1 b r st (v, st1) (refBound_of_mem hb (List.mem_cons_self _ _)) h1
            have lb2 : LogBound st1 st2 b :=
              ih2 b rest st1 (vs, st2) (fun i hi => hb i (List.mem_cons_of_mem _ hi)) h2
            rw [← h]
            exact logBound_trans lb1 lb2
    · intro b d st out hb h
      cases d with
      | file p =>
        rw [mdNodeOf] at h
        simp only [Option.some.injEq] at h
        rw [← h]
        exact logBound_self st b
      | context c =>
        rw [mdNodeOf] at h
        simp only [Option.some.injEq] at h
        rw [← h]
        exact logBound_self st b
      | basic d =>
        rw [mdNodeOf] at h
        cases hF : MDNodeF heap f d.File st with
        | none => simp [hF] at h
        | some pF =>
          obtain ⟨vF, st1⟩ := pF
          simp only [hF] at h
          cases hC : MDNodeF heap f d.Context st1 with
          | none => simp [hC] at h
          | some pC =>
            obtain ⟨vC, st2⟩ := pC
            simp only [hC, Option.some.injEq] at h
            have lb1 : LogBound st st1 b :=
              ih1 b d.File st (vF, st1) (refBound_of_mem hb (by simp [Desc.refs])) hF
            have lb2 : LogBound st1 st2 b :=
              ih1 b d.Context st1 (vC, st2) (refBound_of_mem hb (by simp [Desc.refs])) hC
            rw [← h]
            exact logBound_trans lb1 lb2
      | composite d =>
        rw [mdNodeOf] at h
        cases hF : MDNodeF heap f d.File st with
        | none => simp [hF] at h
        | some pF =>
          obtain ⟨vF, st1⟩ := pF
          simp only [hF] at h
          cases hC : MDNodeF heap f d.Context st1 with
          | none => simp [hC] at h
          | some pC =>
            obtain ⟨vC, st2⟩ := pC
            simp only [hC, mdNodeF_nilIface] at h
            cases hM : MDNodesF heap f d.Members st2 with
            | none => simp [hM] at h
            | some pM =>
              obtain ⟨vM, st3⟩ := pM
              simp only [hM, Option.some.injEq] at h
              have lb1 : LogBound st st1 b :=
                ih1 b d.File st (vF, st1) (refBound_of_mem hb (by simp [Desc.refs])) hF
              have lb2 : LogBound st1 st2 b :=
                ih1 b d.Context st1 (vC, st2) (refBound_of_mem hb (by simp [Desc.refs])) hC
              have lb3 : LogBound st2 st3 b :=
                ih2 b d.Members st2 (vM, st3) (fun i hi => hb i (by simp [Desc.refs, hi])) hM
              rw [← h]
              exact logBound_trans lb1 (logBound_trans lb2 lb3)
      | derived d =>
        rw [mdNodeOf] at h
        cases hF : MDNodeF heap f d.File st with
        | none => simp [hF] at h
        | some pF =>
          obtain ⟨vF, st1⟩ := pF
          simp only [hF] at h
          cases hC : MDNodeF heap f d.Context st1 with
          | none => simp [hC] at h
          | some pC =>
            obtain ⟨vC, st2⟩ := pC
            simp only [hC] at h
            cases hB : MDNodeF heap f d.Base st2 with
            | none => simp [hB] at h
            | some pB =>
              obtain ⟨vB, st3⟩ := pB
              simp only [hB, Option.some.injEq] at h
              have lb1 : LogBound st st1 b :=
                ih1 b d.File st (vF, st1) (refBound_of_mem hb (by simp [Desc.refs])) hF
              have lb2 : LogBound st1 st2 b :=
                ih1 b d.Context st1 (vC, st2) (refBound_of_mem hb (by simp [Desc.refs])) hC
              have lb3 : LogBound st2 st3 b :=
                ih1 b d.Base st2 (vB, st3) (refBound_of_mem hb (by simp [Desc.refs])) hB
              rw [← h]
              exact logBound_trans lb1 (logBound_trans lb2 lb3)
      | compileUnit d =>
        rw [mdNodeOf] at h
        cases hE : MDNodesF heap f d.EnumTypes st with
        | none => simp [hE] at h
        | some pE =>
          obtain ⟨vE, st1⟩ := pE
          simp only [hE] at h
          cases hR : MDNodesF heap f d.RetainedTypes st1 with
          | none => simp [hR] at h
          | some pR =>
            obtain ⟨vR, st2⟩ := pR
            simp only [hR] at h
            cases hS : MDNodesF heap f d.Subprograms st2 with
            | none => simp [hS] at h
            | some pS =>
              obtain ⟨vS, st3⟩ := pS
              simp only [hS] at h
              cases hG : MDNodesF heap f d.GlobalVariables st3 with
              | none => simp [hG] at h
              | some pG =>
                obtain ⟨vG, st4⟩ := pG
                simp only [hG, Option.some.injEq] at h
                have lb1 : LogBound st st1 b :=
                  ih2 b d.EnumTypes st (vE, st1)
                    (fun i hi => hb i (by simp [Desc.refs, hi])) hE
                have lb2 : LogBound st1 st2 b :=
                  ih2 b d.RetainedTypes st1 (vR, st2)
                    (fun i hi => hb i (by simp [Desc.refs, hi])) hR
                have lb3 : LogBound st2 st3 b :=
                  ih2 b d.Subprograms st2 (vS, st3)
                    (fun i hi => hb i (by simp [Desc.refs, hi])) hS
                have lb4 : LogBound st3 st4 b :=
                  ih2 b d.GlobalVariables st3 (vG, st4)
                    (fun i hi => hb i (by simp [Desc.refs, hi])) hG
                rw [← h]
                exact logBound_trans lb1 (logBound_trans lb2 (logBound_trans lb3 lb4))
      | subprogram d =>
        rw [mdNodeOf] at h
        cases hC : MDNodeF heap f d.Context st with
        | none => simp [hC] at h
        | some pC =>
          obtain ⟨vC, st1⟩ := pC
          simp only [hC] at h
          cases hT : MDNodeF heap f d.Type' st1 with
          | none => simp [hT] at h
          | some pT =>
            obtain ⟨vT, st2⟩ := pT
            simp only [hT, mdNodeF_nilIface, Option.some.injEq] at h
            have lb1 : LogBound st st1 b :=
              ih1 b d.Context st (vC, st1) (refBound_of_mem hb (by simp [Desc.refs])) hC
            have lb2 : LogBound st1 st2 b :=
              ih1 b d.Type' st1 (vT, st2) (refBound_of_mem hb (by simp [Desc.refs])) hT
            rw [← h]
            exact logBound_trans lb1 lb2
      | globalVariable d =>
        rw [mdNodeOf] at h
        cases hC : MDNodeF heap f d.Context st with
        | none => simp [hC] at h
        | some pC =>
          obtain ⟨vC, st1⟩ := pC
          simp only [hC] at h
          cases hF : MDNodeF heap f d.File st1 with
          | none => simp [hF] at h
          | some pF =>
            obtain ⟨vF, st2⟩ := pF
            simp only [hF] at h
            cases hT : MDNodeF heap f d.Type' st2 with
            | none => simp [hT] at h
            | some pT =>
              obtain ⟨vT, st3⟩ := pT
              simp only [hT, Option.some.injEq] at h
              have lb1 : LogBound st st1 b :=
                ih1 b d.Context st (vC, st1) (refBound_of_mem hb (by simp [Desc.refs])) hC
              have lb2 : LogBound st1 st2 b :=
                ih1 b d.File st1 (vF, st2) (refBound_of_mem hb (by simp [Desc.refs])) hF
              have lb3 : LogBound st2 st3 b :=
                ih1 b d.Type' st2 (vT, st3) (refBound_of_mem hb (by simp [Desc.refs])) hT
              rw [← h]
              exact logBound_trans lb1 (logBound_trans lb2 lb3)
      | localVariable d =>
        rw [mdNodeOf] at h
        cases hC : MDNodeF heap f d.Context st with
        | none => simp [hC] at h
        | some pC =>
          obtain ⟨vC, st1⟩ := pC
          simp only [hC] at h
          cases hF : MDNodeF heap f d.File st1 with
          | none => simp [hF] at h
          | some pF =>
            obtain ⟨vF, st2⟩ := pF
            simp only [hF] at h
            cases hT : MDNodeF heap f d.Type' st2 with
            | none => simp [hT] at h
            | some pT =>
              obtain ⟨vT, st3⟩ := pT
              simp only [hT, Option.some.injEq] at h
              have lb1 : LogBound st st1 b :=
                ih1 b d.Context st (vC, st1) (refBound_of_mem hb (by simp [Desc.refs])) hC
              have lb2 : LogBound st1 st2 b :=
                ih1 b d.File st1 (vF, st2) (refBound_of_mem hb (by simp [Desc.refs])) hF
              have lb3 : LogBound st2 st3 b :=
                ih1 b d.Type' st2 (vT, st3) (refBound_of_mem hb (by simp [Desc.refs])) hT
              rw [← h]
              exact logBound_trans lb1 (logBound_trans lb2 lb3)
      | line d =>
        rw [mdNodeOf] at h
        cases hC : MDNodeF heap f d.Context st with
        | none => simp [hC] at h
        | some pC =>
          obtain ⟨vC, st1⟩ := pC
          simp only [hC, mdNodeF_nilIface, Option.some.injEq] at h
          have lb1 : LogBound st st1 b :=
            ih1 b d.Context st (vC, st1) (refBound_of_mem hb (by simp [Desc.refs])) hC
          rw [← h]
          exact lb1
      | block d =>
        rw [mdNodeOf] at h
        cases hF : MDNodeF heap f d.File st with
        | none => simp [hF] at h
        | some pF =>
          obtain ⟨vF, st1⟩ := pF
          simp only [hF] at h
          cases hC : MDNodeF heap f d.Context st1 with
          | none => simp [hC] at h
          | some pC =>
            obtain ⟨vC, st2⟩ := pC
            simp only [hC, Option.some.injEq] at h
            have lb1 : LogBound st st1 b :=
              ih1 b d.File st (vF, st1) (refBound_of_mem hb (by simp [Desc.refs])) hF
            have lb2 : LogBound st1 st2 b :=
              ih1 b d.Context st1 (vC, st2) (refBound_of_mem hb (by simp [Desc.refs])) hC
            rw [← h]
            exact logBound_trans lb1 lb2

/-- C1: on an acyclic (index-ranked) descriptor arena, lowering a live
descriptor that is not yet cached through `DebugInfo.MDNode` and then
lowering it again through the same cache returns the identical node both
times (the second call does not even change the state), the cache holds
the result keyed by the descriptor's identity, and the descriptor's own
`mdNode` is invoked exactly once across the two calls. -/
theorem mdnode_cache_memoizes (heap : List Desc) (hord : HeapOrdered heap)
    (fuel id : Nat) (st : DIState) (v1 : Value) (st1 : DIState)
    (hfresh : st.cache.lookup id = none)
    (h1 : MDNodeF heap fuel (DescRef.ref id) st = some (v1, st1)) :
    MDNodeF heap fuel (DescRef.ref id) st1 = some (v1, st1)
    ∧ st1.cache.lookup id = some v1
    ∧ st1.log.count id = st.log.count id + 1 := by
  cases fuel with
  | zero =>
    rw [MDNodeF] at h1
    simp [hfresh] at h1
  | succ f =>
    rw [MDNodeF] at h1
    simp only [hfresh] at h1
    cases hd : heap[id]? with
    | none => simp [hd] at h1
    | some d =>
      simp only [hd] at h1
      cases hm : mdNodeOf heap f d { cache := st.cache, log := st.log ++ [id] } with
      | none => simp [hm] at h1
      | some p =>
        obtain ⟨v, st2⟩ := p
        simp only [hm, Option.some.injEq, Prod.mk.injEq] at h1
        obtain ⟨hv, hst⟩ := h1
        subst hv
        subst hst
        refine ⟨?_, ?_, ?_⟩
        · rw [MDNodeF]
          simp [List.lookup]
        · simp [List.lookup]
        · obtain ⟨ext, hext, hlt⟩ :=
            (logBound_main heap hord f).2.2 id d
              { cache := st.cache, log := st.log ++ [id] } (v, st2)
              (hord id d hd) hm
          have hnot : id ∉ ext := fun hc => lt_irrefl id (hlt id hc)
          show st2.log.count id = st.log.count id + 1
          rw [hext, List.count_append, List.count_append,
            List.count_eq_zero.mpr hnot]
          simp

/-- C1 witness: on the one-descriptor arena, lowering descriptor 0 from
the empty state produced its node, cached it under key 0, and logged one
`mdNode` invocation; the instantiated conclusion shows the second call
returns the identical node and does not re-invoke the lowering. -/
theorem mdnode_cache_memoizes_instance :
    MDNodeF exampleHeap 1 (DescRef.ref 0) { cache := [(0, mainFileNode)], log := [0] } =
      some (mainFileNode, { cache := [(0, mainFileNode)], log := [0] })
    ∧ ({ cache := [(0, mainFileNode)], log := [0] } : DIState).cache.lookup 0 =
      some mainFileNode
    ∧ ([0] : List Nat).count 0 = ([] : List Nat).count 0 + 1 :=
  mdnode_cache_memoizes exampleHeap
    (by
      intro i d hd k hk
      cases i with
      | zero =>
        simp only [exampleHeap, List.getElem?_cons_zero, Option.some.injEq] at hd
        subst hd
        simp [Desc.refs] at hk
      | succ n => simp [exampleHeap] at hd)
    1 0 { cache := [], log := [] } mainFileNode
    { cache := [(0, mainFileNode)], log := [0] } rfl rfl
